import Mathlib

/-!
Shallow embedding of the `light_arena` crate (src/src/lib.rs): a scoped bump
memory arena.  Machine addresses and sizes are modelled as `Nat` (Rust pointer
arithmetic must not overflow for the pointers to be valid, so no wraparound is
modelled).  A `Block`'s backing `Vec<u8>` is modelled by its start address
`base`, its (unread, untouched) byte contents `data`, and its `capacity`;
`size` is the bump cursor, exactly as in the Rust struct.  Fallible pointer
results (`*mut u8` which may be null) are modelled as `Option Nat`.

New heap buffers obtained from the system get an arbitrary start address and
arbitrary uninitialized contents, so `Block.new` and every operation that may
create a block take the fresh address / contents as explicit parameters.
-/

namespace LightArena

/-- Model of `struct Block { buffer: Vec<u8>, size: usize }`.
`base` is the address `buffer.as_ptr()`, `data` the byte contents,
`capacity` is `buffer.capacity()`, and `size` the cursor field `size`. -/
structure Block where
  base : Nat
  data : List Nat
  capacity : Nat
  size : Nat
deriving DecidableEq

/-- `fn align_address(ptr: *const u8, align: usize) -> usize`:
bytes needed to move `addr` up to the next multiple of `align`. -/
def align_address (addr align : Nat) : Nat :=
  if addr % align ≠ 0 then align - addr % align else 0

/-- `Block::new(size)`: a buffer of capacity `size` with cursor `0`.
The fresh buffer's address and uninitialized contents are parameters. -/
def Block.new (base : Nat) (data : List Nat) (size : Nat) : Block :=
  ⟨base, data, size, 0⟩

/-- `Block::has_room(size, align)`:
`self.buffer.capacity() - self.size >= size + align_offset` where
`align_offset` aligns the current cursor address `base + size`. -/
def Block.has_room (b : Block) (size align : Nat) : Bool :=
  decide (size + align_address (b.base + b.size) align ≤ b.capacity - b.size)

/-- `Block::reserve(size, align)`: on room, return the aligned cursor address
and advance the cursor by `size + align_offset`; otherwise return null
(`none`) and leave the block unchanged. -/
def Block.reserve (b : Block) (size align : Nat) : Block × Option Nat :=
  if b.has_room size align then
    let align_offset := align_address (b.base + b.size) align
    ({ b with size := b.size + size + align_offset },
      some (b.base + b.size + align_offset))
  else
    (b, none)

/-- Model of `pub struct MemoryArena { blocks: Vec<Block>, block_size: usize }`. -/
structure MemoryArena where
  blocks : List Block
  block_size : Nat
deriving DecidableEq

/-- `MemoryArena::new(block_size_mb)`: one initial block of
`block_size_mb * 1024 * 1024` bytes. -/
def MemoryArena.new (block_size_mb : Nat) (base0 : Nat) (data0 : List Nat) :
    MemoryArena :=
  let block_size := block_size_mb * 1024 * 1024
  ⟨[Block.new base0 data0 block_size], block_size⟩

/-- The `for b in &mut self.blocks` loop of `MemoryArena::reserve`: find the
first block with room and reserve from it, returning the updated block list
and the pointer; `none` when no block has room. -/
def reserveBlocks (size align : Nat) : List Block → Option (List Block × Option Nat)
  | [] => none
  | b :: bs =>
    if b.has_room size align then
      let r := b.reserve size align
      some (r.1 :: bs, r.2)
    else
      match reserveBlocks size align bs with
      | some (bs', p) => some (b :: bs', p)
      | none => none

/-- `MemoryArena::reserve(size, align)`: serve from the first block with room;
otherwise push a fresh block of capacity `max(self.block_size, size + align)`
and reserve from it.  `newBase`/`newData` model the fresh buffer returned by
the system allocator in the growth case. -/
def MemoryArena.reserve (a : MemoryArena) (newBase : Nat) (newData : List Nat)
    (size align : Nat) : MemoryArena × Option Nat :=
  match reserveBlocks size align a.blocks with
  | some (bs', p) => (⟨bs', a.block_size⟩, p)
  | none =>
    let new_block_size := max a.block_size (size + align)
    let r := (Block.new newBase newData new_block_size).reserve size align
    (⟨a.blocks ++ [r.1], a.block_size⟩, r.2)

/-- `Allocator::alloc_slice::<T>(len)`: reserve `len * size_of::<T>()` bytes at
`align_of::<T>()` through the arena.  Element size and alignment of `T` are
parameters. -/
def Allocator.alloc_slice (a : MemoryArena) (newBase : Nat) (newData : List Nat)
    (len sizeOfT alignOfT : Nat) : MemoryArena × Option Nat :=
  a.reserve newBase newData (len * sizeOfT) alignOfT

/-- `impl Drop for Allocator`: set every block's cursor to `0`;
nothing else is touched. -/
def Allocator.drop (a : MemoryArena) : MemoryArena :=
  ⟨a.blocks.map (fun b => { b with size := 0 }), a.block_size⟩

/-- One allocation request made through an open scope: the size and alignment
handed to `MemoryArena::reserve`, together with the fresh buffer the system
would return should the arena have to grow on this request. -/
structure Request where
  newBase : Nat
  newData : List Nat
  size : Nat
  align : Nat
deriving DecidableEq

/-- Run a sequence of allocation requests through one open scope, collecting
each returned address together with its requested size. -/
def runScope (a : MemoryArena) : List Request → MemoryArena × List (Option Nat × Nat)
  | [] => (a, [])
  | req :: reqs =>
    let r := a.reserve req.newBase req.newData req.size req.align
    let rest := runScope r.1 reqs
    (rest.1, (r.2, req.size) :: rest.2)

/-- The documented invariant `used <= capacity` for every block of an arena. -/
def WF (a : MemoryArena) : Prop := ∀ b ∈ a.blocks, b.size ≤ b.capacity

instance (a : MemoryArena) : Decidable (WF a) :=
  decidable_of_iff (∀ b ∈ a.blocks, b.size ≤ b.capacity) Iff.rfl

/-- Two blocks own disjoint address ranges `[base, base + capacity)`.
In the running program this always holds: each block exclusively owns its
`Vec<u8>` buffer. -/
def blockRangesDisjoint (b b' : Block) : Prop :=
  b.base + b.capacity ≤ b'.base ∨ b'.base + b'.capacity ≤ b.base

instance (b b' : Block) : Decidable (blockRangesDisjoint b b') :=
  decidable_of_iff (b.base + b.capacity ≤ b'.base ∨ b'.base + b'.capacity ≤ b.base)
    Iff.rfl

/-- Two recorded allocations (address, size) have disjoint byte ranges
`[addr, addr + size)`; a failed allocation is disjoint from everything. -/
def resDisjoint (p q : Option Nat × Nat) : Prop :=
  ∀ x y, p.1 = some x → q.1 = some y → x + p.2 ≤ y ∨ y + q.2 ≤ x

/-- The identity of a block: its buffer address, capacity and contents —
everything except the bump cursor. -/
def blockKey (b : Block) : Nat × Nat × List Nat :=
  (b.base, b.capacity, b.data)

/-! ### Alignment arithmetic -/

theorem align_address_lt (addr : Nat) {align : Nat} (h : 0 < align) :
    align_address addr align < align := by
  unfold align_address
  split
  · have := Nat.mod_lt addr h
    omega
  · omega

theorem align_address_add_mod (addr : Nat) {align : Nat} (h : 0 < align) :
    (addr + align_address addr align) % align = 0 := by
  unfold align_address
  split
  · have hdm := Nat.div_add_mod addr align
    have hlt := Nat.mod_lt addr h
    have h1 : addr + (align - addr % align) = align * (addr / align) + align := by
      omega
    rw [h1, Nat.mul_add_mod, Nat.mod_self]
  · next h0 =>
      simp only [ne_eq, not_not] at h0
      simpa using h0

theorem align_address_of_aligned {addr align : Nat} (h : addr % align = 0) :
    align_address addr align = 0 := by
  unfold align_address
  simp [h]

/-! ### Block.reserve basic facts -/

theorem block_reserve_of_room {b : Block} {s al : Nat}
    (h : b.has_room s al = true) :
    b.reserve s al =
      ({ b with size := b.size + s + align_address (b.base + b.size) al },
        some (b.base + b.size + align_address (b.base + b.size) al)) := by
  unfold Block.reserve
  rw [if_pos h]

theorem block_reserve_of_no_room {b : Block} {s al : Nat}
    (h : b.has_room s al = false) :
    b.reserve s al = (b, none) := by
  unfold Block.reserve
  rw [if_neg (by simp [h])]

theorem has_room_iff {b : Block} {s al : Nat} :
    b.has_room s al = true ↔
      s + align_address (b.base + b.size) al ≤ b.capacity - b.size := by
  unfold Block.has_room
  exact decide_eq_true_iff

theorem block_reserve_isSome {b : Block} {s al : Nat} :
    (b.reserve s al).2.isSome = true ↔ b.has_room s al = true := by
  by_cases h : b.has_room s al = true
  · rw [block_reserve_of_room h]
    simp [h]
  · rw [block_reserve_of_no_room (by simpa using h)]
    simpa using h

theorem block_reserve_some_mod {b : Block} {s al x : Nat} (hal : 0 < al)
    (h : (b.reserve s al).2 = some x) : x % al = 0 := by
  by_cases hr : b.has_room s al = true
  · rw [block_reserve_of_room hr] at h
    simp only [Option.some.injEq] at h
    rw [← h]
    exact align_address_add_mod (b.base + b.size) hal
  · rw [block_reserve_of_no_room (by simpa using hr)] at h
    cases h

/-! ### reserveBlocks: the first-fit scan -/

theorem rb_spec {s al : Nat} : ∀ {bs bs' : List Block} {r : Option Nat},
    reserveBlocks s al bs = some (bs', r) →
    ∃ i, ∃ hi : i < bs.length,
      (∀ j (hj : j < bs.length), j < i → (bs.get ⟨j, hj⟩).has_room s al = false) ∧
      (bs.get ⟨i, hi⟩).has_room s al = true ∧
      bs' = bs.set i ((bs.get ⟨i, hi⟩).reserve s al).1 ∧
      r = ((bs.get ⟨i, hi⟩).reserve s al).2
  | [], _, _, h => by cases h
  | b :: bs, bs', r, h => by
    unfold reserveBlocks at h
    by_cases hr : b.has_room s al = true
    · rw [if_pos hr] at h
      simp only [Option.some.injEq, Prod.mk.injEq] at h
      refine ⟨0, Nat.succ_pos _, ?_, hr, ?_, ?_⟩
      · intro j hj hj0
        omega
      · simp [← h.1, List.set]
      · exact h.2.symm
    · rw [if_neg (by simp [hr])] at h
      rcases hrec : reserveBlocks s al bs with _ | ⟨bs0, p⟩
      · rw [hrec] at h
        cases h
      · rw [hrec] at h
        simp only [Option.some.injEq, Prod.mk.injEq] at h
        obtain ⟨i, hi, hbefore, hroom, hset, hres⟩ := rb_spec hrec
        refine ⟨i + 1, by simpa using Nat.succ_lt_succ hi, ?_, ?_, ?_, ?_⟩
        · intro j hj hji
          match j with
          | 0 => simpa using (by simpa using hr)
          | j + 1 =>
            exact hbefore j (by simpa using Nat.lt_of_succ_lt_succ hj)
              (Nat.lt_of_succ_lt_succ hji)
        · simpa using hroom
        · rw [← h.1, hset]
          simp [List.set]
        · exact h.2.symm.trans hres

theorem rb_none {s al : Nat} : ∀ {bs : List Block},
    reserveBlocks s al bs = none ↔ ∀ b ∈ bs, b.has_room s al = false
  | [] => by simp [reserveBlocks]
  | b :: bs => by
    unfold reserveBlocks
    by_cases hr : b.has_room s al = true
    · rw [if_pos hr]
      simp [hr]
    · rw [if_neg (by simp [hr])]
      rcases hrec : reserveBlocks s al bs with _ | ⟨bs0, p⟩
      · simp only [List.mem_cons]
        constructor
        · intro _ c hc
          rcases hc with rfl | hc
          · simpa using hr
          · exact (rb_none.mp hrec) c hc
        · intro _
          trivial
      · simp only [List.mem_cons]
        constructor
        · intro h
          cases h
        · intro hall
          have : reserveBlocks s al bs = none :=
            rb_none.mpr (fun c hc => hall c (Or.inr hc))
          rw [this] at hrec
          cases hrec

theorem rb_of_first {s al : Nat} : ∀ {bs : List Block} {i : Nat} (hi : i < bs.length),
    (∀ j (hj : j < bs.length), j < i → (bs.get ⟨j, hj⟩).has_room s al = false) →
    (bs.get ⟨i, hi⟩).has_room s al = true →
    reserveBlocks s al bs =
      some (bs.set i ((bs.get ⟨i, hi⟩).reserve s al).1,
        ((bs.get ⟨i, hi⟩).reserve s al).2)
  | [], i, hi, _, _ => by cases hi
  | b :: bs, 0, hi, _, hroom => by
    unfold reserveBlocks
    rw [if_pos (by simpa using hroom)]
    simp [List.set]
  | b :: bs, i + 1, hi, hbefore, hroom => by
    unfold reserveBlocks
    have hb0 : b.has_room s al = false := by
      simpa using hbefore 0 (Nat.succ_pos _) (Nat.succ_pos _)
    rw [if_neg (by simp [hb0])]
    have hrec := @rb_of_first s al bs i
      (by simpa using Nat.lt_of_succ_lt_succ hi)
      (fun j hj hji =>
        hbefore (j + 1) (by simpa using Nat.succ_lt_succ hj) (Nat.succ_lt_succ hji))
      (by simpa using hroom)
    rw [hrec]
    simp [List.set]

/-! ### List helper -/

theorem set_get_self {α : Type} : ∀ (l : List α) (i : Nat) (h : i < l.length),
    l.set i (l.get ⟨i, h⟩) = l
  | [], i, h => by cases h
  | b :: bs, 0, _ => rfl
  | b :: bs, i + 1, h => by
    simp only [List.set, List.get]
    rw [set_get_self bs i (Nat.lt_of_succ_lt_succ h)]

/-! ### Invariant `size ≤ capacity` -/

theorem block_reserve_wf {b : Block} {s al : Nat} (hwf : b.size ≤ b.capacity) :
    (b.reserve s al).1.size ≤ (b.reserve s al).1.capacity := by
  by_cases hr : b.has_room s al = true
  · rw [block_reserve_of_room hr]
    have := has_room_iff.mp hr
    simp only
    omega
  · rw [block_reserve_of_no_room (by simpa using hr)]
    exact hwf

theorem fresh_block_reserve_wf (base : Nat) (data : List Nat) (cap s al : Nat) :
    ((Block.new base data cap).reserve s al).1.size ≤
      ((Block.new base data cap).reserve s al).1.capacity :=
  block_reserve_wf (Nat.zero_le _)

theorem arena_reserve_wf {a : MemoryArena} (nb : Nat) (nd : List Nat) (s al : Nat)
    (hwf : WF a) : WF (a.reserve nb nd s al).1 := by
  unfold MemoryArena.reserve
  rcases hrb : reserveBlocks s al a.blocks with _ | ⟨bs', p⟩
  · intro c hc
    simp only [List.mem_append, List.mem_singleton] at hc
    rcases hc with hc | rfl
    · exact hwf c hc
    · exact fresh_block_reserve_wf nb nd _ s al
  · obtain ⟨i, hi, _, hroom, hset, _⟩ := rb_spec hrb
    intro c hc
    subst hset
    rcases List.mem_or_eq_of_mem_set hc with hc | rfl
    · exact hwf c hc
    · exact block_reserve_wf (hwf _ (List.get_mem a.blocks i hi))

theorem drop_wf (a : MemoryArena) : WF (Allocator.drop a) := by
  intro c hc
  simp only [Allocator.drop, List.mem_map] at hc
  obtain ⟨b, _, rfl⟩ := hc
  exact Nat.zero_le _

/-! ### Arena reserve: returned addresses are aligned -/

theorem arena_reserve_some_mod {a : MemoryArena} {nb : Nat} {nd : List Nat}
    {s al x : Nat} (hal : 0 < al)
    (h : (a.reserve nb nd s al).2 = some x) : x % al = 0 := by
  unfold MemoryArena.reserve at h
  rcases hrb : reserveBlocks s al a.blocks with _ | ⟨bs', p⟩
  · rw [hrb] at h
    exact block_reserve_some_mod hal h
  · rw [hrb] at h
    obtain ⟨i, hi, _, _, _, hres⟩ := rb_spec hrb
    simp only at h
    exact block_reserve_some_mod hal (hres.symm.trans h)

/-! ### Arena reserve never fails (for positive alignment) -/

theorem fresh_block_has_room {nb s al : Nat} (nd : List Nat) (bsz : Nat)
    (hal : 0 < al) :
    (Block.new nb nd (max bsz (s + al))).has_room s al = true := by
  rw [has_room_iff]
  have hlt := align_address_lt (nb + (Block.new nb nd (max bsz (s + al))).size) hal
  have : s + al ≤ max bsz (s + al) := le_max_right _ _
  simp only [Block.new] at *
  omega

theorem arena_reserve_isSome {a : MemoryArena} (nb : Nat) (nd : List Nat)
    {s al : Nat} (hal : 0 < al) :
    ((a.reserve nb nd s al).2).isSome = true := by
  unfold MemoryArena.reserve
  rcases hrb : reserveBlocks s al a.blocks with _ | ⟨bs', p⟩
  · simp only
    exact block_reserve_isSome.mpr (fresh_block_has_room nd a.block_size hal)
  · obtain ⟨i, hi, _, hroom, _, hres⟩ := rb_spec hrb
    simp only [hres]
    exact block_reserve_isSome.mpr hroom

/-! ### Extension order on block lists

One arena operation never removes a block, never moves one, never changes a
block's buffer or capacity, and never decreases a cursor: the new block list
extends the old one. -/

def Extends (bs bs' : List Block) : Prop :=
  bs.length ≤ bs'.length ∧
  ∀ i (hi : i < bs.length) (hi' : i < bs'.length),
    (bs'.get ⟨i, hi'⟩).base = (bs.get ⟨i, hi⟩).base ∧
    (bs'.get ⟨i, hi'⟩).capacity = (bs.get ⟨i, hi⟩).capacity ∧
    (bs.get ⟨i, hi⟩).size ≤ (bs'.get ⟨i, hi'⟩).size

theorem extends_refl (bs : List Block) : Extends bs bs :=
  ⟨le_refl _, fun _ _ _ => ⟨rfl, rfl, le_refl _⟩⟩

theorem extends_trans {bs1 bs2 bs3 : List Block}
    (h12 : Extends bs1 bs2) (h23 : Extends bs2 bs3) : Extends bs1 bs3 := by
  refine ⟨le_trans h12.1 h23.1, fun i hi hi' => ?_⟩
  have hi2 : i < bs2.length := Nat.lt_of_lt_of_le hi h12.1
  obtain ⟨hb1, hc1, hs1⟩ := h12.2 i hi hi2
  obtain ⟨hb2, hc2, hs2⟩ := h23.2 i hi2 hi'
  exact ⟨hb2.trans hb1, hc2.trans hc1, le_trans hs1 hs2⟩

theorem extends_set_reserve {bs : List Block} {i : Nat} (hi : i < bs.length)
    (s al : Nat) :
    Extends bs (bs.set i ((bs.get ⟨i, hi⟩).reserve s al).1) := by
  refine ⟨by simp, fun j hj hj' => ?_⟩
  by_cases hji : j = i
  · subst hji
    have hget : (bs.set j ((bs.get ⟨j, hi⟩).reserve s al).1).get ⟨j, hj'⟩
        = ((bs.get ⟨j, hi⟩).reserve s al).1 := by
      simp [List.get_eq_getElem, List.getElem_set_self]
    rw [hget]
    by_cases hr : (bs.get ⟨j, hi⟩).has_room s al = true
    · rw [block_reserve_of_room hr]
      exact ⟨rfl, rfl, by simp; omega⟩
    · rw [block_reserve_of_no_room (by simpa using hr)]
      exact ⟨rfl, rfl, le_refl _⟩
  · have hget : (bs.set i ((bs.get ⟨i, hi⟩).reserve s al).1).get ⟨j, hj'⟩
        = bs.get ⟨j, hj⟩ := by
      simp only [List.get_eq_getElem]
      exact List.getElem_set_ne (fun h => hji h.symm) _
    rw [hget]
    exact ⟨rfl, rfl, le_refl _⟩

theorem extends_append (bs l : List Block) : Extends bs (bs ++ l) := by
  refine ⟨by simp, fun i hi hi' => ?_⟩
  have hget : (bs ++ l).get ⟨i, hi'⟩ = bs.get ⟨i, hi⟩ := by
    simp only [List.get_eq_getElem]
    exact List.getElem_append_left hi
  rw [hget]
  exact ⟨rfl, rfl, le_refl _⟩

theorem step_extends (a : MemoryArena) (nb : Nat) (nd : List Nat) (s al : Nat) :
    Extends a.blocks (a.reserve nb nd s al).1.blocks := by
  unfold MemoryArena.reserve
  rcases hrb : reserveBlocks s al a.blocks with _ | ⟨bs', p⟩
  · exact extends_append _ _
  · obtain ⟨i, hi, _, _, hset, _⟩ := rb_spec hrb
    subst hset
    exact extends_set_reserve hi s al

theorem run_extends : ∀ (reqs : List Request) (a : MemoryArena),
    Extends a.blocks (runScope a reqs).1.blocks
  | [], a => extends_refl _
  | req :: reqs, a => by
    simp only [runScope]
    exact extends_trans
      (step_extends a req.newBase req.newData req.size req.align)
      (run_extends reqs _)

/-! ### Reduction equations for MemoryArena.reserve -/

theorem arena_reserve_of_rb_some {a : MemoryArena} (nb : Nat) (nd : List Nat)
    {s al : Nat} {bs' : List Block} {p : Option Nat}
    (hrb : reserveBlocks s al a.blocks = some (bs', p)) :
    a.reserve nb nd s al = (⟨bs', a.block_size⟩, p) := by
  unfold MemoryArena.reserve
  rw [hrb]

theorem arena_reserve_of_rb_none {a : MemoryArena} (nb : Nat) (nd : List Nat)
    {s al : Nat} (hrb : reserveBlocks s al a.blocks = none) :
    a.reserve nb nd s al =
      (⟨a.blocks ++
          [((Block.new nb nd (max a.block_size (s + al))).reserve s al).1],
        a.block_size⟩,
        ((Block.new nb nd (max a.block_size (s + al))).reserve s al).2) := by
  unfold MemoryArena.reserve
  rw [hrb]

theorem get_set_self {α : Type} (l : List α) (i : Nat) (x : α)
    (h : i < (l.set i x).length) : (l.set i x).get ⟨i, h⟩ = x := by
  simp [List.get_eq_getElem, List.getElem_set_self]

theorem get_set_other {α : Type} (l : List α) (i j : Nat) (x : α) (hij : i ≠ j)
    (h : j < (l.set i x).length) (h' : j < l.length) :
    (l.set i x).get ⟨j, h⟩ = l.get ⟨j, h'⟩ := by
  simp only [List.get_eq_getElem]
  exact List.getElem_set_ne hij _

theorem get_append_last {α : Type} (l : List α) (b : α)
    (h : l.length < (l ++ [b]).length) : (l ++ [b]).get ⟨l.length, h⟩ = b := by
  simp [List.get_eq_getElem]

theorem get_append_left {α : Type} (l l' : List α) (i : Nat) (hi : i < l.length)
    (h : i < (l ++ l').length) : (l ++ l').get ⟨i, h⟩ = l.get ⟨i, hi⟩ := by
  simp only [List.get_eq_getElem]
  exact List.getElem_append_left hi

/-! ### What one successful arena reservation guarantees -/

theorem reserve_some_spec {a : MemoryArena} {nb : Nat} {nd : List Nat}
    {s al x : Nat} (h : (a.reserve nb nd s al).2 = some x) :
    ∃ i, ∃ hi' : i < (a.reserve nb nd s al).1.blocks.length,
      ((a.reserve nb nd s al).1.blocks.get ⟨i, hi'⟩).base ≤ x ∧
      x + s = ((a.reserve nb nd s al).1.blocks.get ⟨i, hi'⟩).base +
        ((a.reserve nb nd s al).1.blocks.get ⟨i, hi'⟩).size ∧
      ∀ hi : i < a.blocks.length,
        (a.blocks.get ⟨i, hi⟩).base + (a.blocks.get ⟨i, hi⟩).size ≤ x := by
  rcases hrb : reserveBlocks s al a.blocks with _ | ⟨bs', p⟩
  · rw [arena_reserve_of_rb_none nb nd hrb] at h ⊢
    simp only at h ⊢
    have hroom : (Block.new nb nd (max a.block_size (s + al))).has_room s al = true := by
      by_cases hr : (Block.new nb nd (max a.block_size (s + al))).has_room s al = true
      · exact hr
      · rw [block_reserve_of_no_room (by simpa using hr)] at h
        cases h
    rw [block_reserve_of_room hroom] at h ⊢
    simp only [Option.some.injEq] at h
    have hlen : a.blocks.length <
        (a.blocks ++ [({ Block.new nb nd (max a.block_size (s + al)) with
          size := (Block.new nb nd (max a.block_size (s + al))).size + s +
            align_address ((Block.new nb nd (max a.block_size (s + al))).base +
              (Block.new nb nd (max a.block_size (s + al))).size) al } : Block)]).length := by
      simp
    refine ⟨a.blocks.length, hlen, ?_, ?_, ?_⟩
    · rw [get_append_last]
      simp only [Block.new] at h ⊢
      omega
    · rw [get_append_last]
      simp only [Block.new] at h ⊢
      omega
    · intro hi
      omega
  · rw [arena_reserve_of_rb_some nb nd hrb] at h ⊢
    simp only at h ⊢
    subst h
    obtain ⟨i, hi, _, hroom, hset, hres⟩ := rb_spec hrb
    have hx : ((a.blocks.get ⟨i, hi⟩).reserve s al).2 = some x := hres.symm
    rw [block_reserve_of_room hroom] at hx
    simp only [Option.some.injEq] at hx
    subst hset
    have hi' : i < (a.blocks.set i ((a.blocks.get ⟨i, hi⟩).reserve s al).1).length := by
      simpa using hi
    refine ⟨i, hi', ?_, ?_, ?_⟩
    · rw [get_set_self, block_reserve_of_room hroom]
      simp only
      omega
    · rw [get_set_self, block_reserve_of_room hroom]
      simp only
      omega
    · intro hi0
      have heq : a.blocks.get ⟨i, hi0⟩ = a.blocks.get ⟨i, hi⟩ := rfl
      rw [heq]
      omega

/-- Every address handed out during a scope, together with its size, lies in
the claimed region `[base, base + size)` of some block of the final arena
`a'`, and starts at or above that block's cursor as it stood in the arena
`a0` at the start of the run. -/
def GoodFrom (a0 a' : MemoryArena) (rs : List (Option Nat × Nat)) : Prop :=
  ∀ p ∈ rs, ∀ y, p.1 = some y →
    ∃ j, ∃ hj' : j < a'.blocks.length,
      (a'.blocks.get ⟨j, hj'⟩).base ≤ y ∧
      y + p.2 ≤ (a'.blocks.get ⟨j, hj'⟩).base + (a'.blocks.get ⟨j, hj'⟩).size ∧
      ∀ hj : j < a0.blocks.length,
        (a0.blocks.get ⟨j, hj⟩).base + (a0.blocks.get ⟨j, hj⟩).size ≤ y

theorem runScope_spec : ∀ (reqs : List Request) (a : MemoryArena),
    WF a →
    (runScope a reqs).1.blocks.Pairwise blockRangesDisjoint →
    WF (runScope a reqs).1 ∧
    GoodFrom a (runScope a reqs).1 (runScope a reqs).2 ∧
    (runScope a reqs).2.Pairwise resDisjoint
  | [], a, hwf, _ => by
    refine ⟨hwf, ?_, List.Pairwise.nil⟩
    intro p hp
    cases hp
  | req :: reqs, a, hwf, hpair => by
    simp only [runScope] at hpair ⊢
    have hwf1 : WF (a.reserve req.newBase req.newData req.size req.align).1 :=
      arena_reserve_wf _ _ _ _ hwf
    obtain ⟨hwfF, hgood, hpw⟩ := runScope_spec reqs _ hwf1 hpair
    have hext1 := run_extends reqs (a.reserve req.newBase req.newData req.size req.align).1
    have hstep := step_extends a req.newBase req.newData req.size req.align
    refine ⟨hwfF, ?_, ?_⟩
    · intro p hp y hy
      rcases List.mem_cons.mp hp with rfl | hp
      · simp only at hy
        obtain ⟨i, hi1, hbase, hxs, hcur⟩ := reserve_some_spec hy
        have hj' : i < (runScope (a.reserve req.newBase req.newData req.size
            req.align).1 reqs).1.blocks.length := Nat.lt_of_lt_of_le hi1 hext1.1
        obtain ⟨hbeq, _, hsle⟩ := hext1.2 i hi1 hj'
        exact ⟨i, hj', by omega, by omega, hcur⟩
      · obtain ⟨j, hj', hby, hys, hcurj⟩ := hgood p hp y hy
        refine ⟨j, hj', hby, hys, ?_⟩
        intro hj
        have hj1 : j < (a.reserve req.newBase req.newData req.size
            req.align).1.blocks.length := Nat.lt_of_lt_of_le hj hstep.1
        obtain ⟨hbeq, _, hsle⟩ := hstep.2 j hj hj1
        have := hcurj hj1
        omega
    · refine List.Pairwise.cons ?_ hpw
      intro q hq x y hx hy
      simp only at hx
      obtain ⟨i, hi1, hbase, hxs, _⟩ := reserve_some_spec hx
      obtain ⟨j, hj', hby, hys, hcurj⟩ := hgood q hq y hy
      by_cases hij : i = j
      · subst hij
        have := hcurj hi1
        omega
      · have hi' : i < (runScope (a.reserve req.newBase req.newData req.size
            req.align).1 reqs).1.blocks.length := Nat.lt_of_lt_of_le hi1 hext1.1
        obtain ⟨hbeq, hceq, hsle⟩ := hext1.2 i hi1 hi'
        have hwfi := hwfF _ (List.get_mem (runScope (a.reserve req.newBase
          req.newData req.size req.align).1 reqs).1.blocks i hi')
        have hwfj := hwfF _ (List.get_mem (runScope (a.reserve req.newBase
          req.newData req.size req.align).1 reqs).1.blocks j hj')
        have hdisj : blockRangesDisjoint
            ((runScope (a.reserve req.newBase req.newData req.size
              req.align).1 reqs).1.blocks.get ⟨i, hi'⟩)
            ((runScope (a.reserve req.newBase req.newData req.size
              req.align).1 reqs).1.blocks.get ⟨j, hj'⟩) := by
          rcases Nat.lt_or_ge i j with hlt | hge
          · exact (List.pairwise_iff_get.mp hpair) ⟨i, hi'⟩ ⟨j, hj'⟩ hlt
          · have hlt : j < i := Nat.lt_of_le_of_ne hge (fun h => hij h.symm)
            have := (List.pairwise_iff_get.mp hpair) ⟨j, hj'⟩ ⟨i, hi'⟩ hlt
            exact this.symm
        unfold blockRangesDisjoint at hdisj
        omega

/-! ### Zero-size reservations -/

/-- If the blocks before index `i` have no room for a zero-size request and
block `i`'s cursor address is already aligned, a zero-size reserve returns
exactly that cursor address. -/
theorem reserve_zero_after {A : MemoryArena} {i : Nat} (nb' : Nat) (nd' : List Nat)
    {al : Nat} (hi : i < A.blocks.length)
    (hbefore : ∀ j (hj : j < A.blocks.length), j < i →
      (A.blocks.get ⟨j, hj⟩).has_room 0 al = false)
    (haligned : ((A.blocks.get ⟨i, hi⟩).base + (A.blocks.get ⟨i, hi⟩).size) % al = 0) :
    (A.reserve nb' nd' 0 al).2 =
      some ((A.blocks.get ⟨i, hi⟩).base + (A.blocks.get ⟨i, hi⟩).size) := by
  have hpad : align_address ((A.blocks.get ⟨i, hi⟩).base +
      (A.blocks.get ⟨i, hi⟩).size) al = 0 := align_address_of_aligned haligned
  have hroom : (A.blocks.get ⟨i, hi⟩).has_room 0 al = true := by
    rw [has_room_iff, hpad]
    omega
  rw [arena_reserve_of_rb_some nb' nd' (rb_of_first hi hbefore hroom)]
  rw [block_reserve_of_room hroom]
  simp only [List.get_eq_getElem] at hpad
  simp [hpad]

/-- Two consecutive zero-size reservations at the same (positive) alignment
return the same address: the second one finds the same block, whose cursor
address is aligned already, and advances nothing. -/
theorem zero_reserve_twice {a : MemoryArena} (nb nb' : Nat) (nd nd' : List Nat)
    {al : Nat} (hal : 0 < al) :
    ((a.reserve nb nd 0 al).1.reserve nb' nd' 0 al).2 = (a.reserve nb nd 0 al).2 := by
  rcases hrb : reserveBlocks 0 al a.blocks with _ | ⟨bs', p⟩
  · rw [arena_reserve_of_rb_none nb nd hrb]
    have hroomB : (Block.new nb nd (max a.block_size (0 + al))).has_room 0 al = true :=
      fresh_block_has_room nd a.block_size hal
    rw [block_reserve_of_room hroomB]
    simp only
    have hlen : a.blocks.length < (a.blocks ++
        [({ Block.new nb nd (max a.block_size (0 + al)) with
          size := (Block.new nb nd (max a.block_size (0 + al))).size + 0 +
            align_address ((Block.new nb nd (max a.block_size (0 + al))).base +
              (Block.new nb nd (max a.block_size (0 + al))).size) al } : Block)]).length := by
      simp
    have hbefore : ∀ j (hj : j < (a.blocks ++
        [({ Block.new nb nd (max a.block_size (0 + al)) with
          size := (Block.new nb nd (max a.block_size (0 + al))).size + 0 +
            align_address ((Block.new nb nd (max a.block_size (0 + al))).base +
              (Block.new nb nd (max a.block_size (0 + al))).size) al } : Block)]).length),
        j < a.blocks.length →
        (((a.blocks ++
          [({ Block.new nb nd (max a.block_size (0 + al)) with
            size := (Block.new nb nd (max a.block_size (0 + al))).size + 0 +
              align_address ((Block.new nb nd (max a.block_size (0 + al))).base +
                (Block.new nb nd (max a.block_size (0 + al))).size) al } : Block)]).get
          ⟨j, hj⟩).has_room 0 al) = false := by
      intro j hj hji
      rw [get_append_left _ _ j hji hj]
      exact rb_none.mp hrb _ (List.get_mem a.blocks j hji)
    have h2 := reserve_zero_after (A := ⟨a.blocks ++
        [({ Block.new nb nd (max a.block_size (0 + al)) with
          size := (Block.new nb nd (max a.block_size (0 + al))).size + 0 +
            align_address ((Block.new nb nd (max a.block_size (0 + al))).base +
              (Block.new nb nd (max a.block_size (0 + al))).size) al } : Block)],
        a.block_size⟩) nb' nd' hlen hbefore ?_
    · rw [h2, get_append_last]
      apply congrArg some
      simp only [Block.new]
      omega
    · rw [get_append_last]
      simp only [Block.new]
      have := align_address_add_mod (nb + 0) hal
      have harith : nb + (0 + 0 + align_address (nb + 0) al)
          = nb + 0 + align_address (nb + 0) al := by omega
      rw [harith]
      exact this
  · rw [arena_reserve_of_rb_some nb nd hrb]
    obtain ⟨i, hi, hbefore, hroom, hset, hres⟩ := rb_spec hrb
    subst hset
    subst hres
    have hi' : i < (a.blocks.set i ((a.blocks.get ⟨i, hi⟩).reserve 0 al).1).length := by
      simpa using hi
    have hbefore' : ∀ j (hj : j <
        (a.blocks.set i ((a.blocks.get ⟨i, hi⟩).reserve 0 al).1).length), j < i →
        ((a.blocks.set i ((a.blocks.get ⟨i, hi⟩).reserve 0 al).1).get
          ⟨j, hj⟩).has_room 0 al = false := by
      intro j hj hji
      have hj0 : j < a.blocks.length := by simpa using hj
      rw [get_set_other _ _ _ _ (Nat.ne_of_gt hji) hj hj0]
      exact hbefore j hj0 hji
    have h2 := reserve_zero_after (A := ⟨a.blocks.set i
        ((a.blocks.get ⟨i, hi⟩).reserve 0 al).1, a.block_size⟩) nb' nd' hi' hbefore' ?_
    · rw [h2, get_set_self, block_reserve_of_room hroom]
      simp only
      apply congrArg some
      omega
    · rw [get_set_self, block_reserve_of_room hroom]
      simp only
      have := align_address_add_mod
        ((a.blocks.get ⟨i, hi⟩).base + (a.blocks.get ⟨i, hi⟩).size) hal
      have harith : (a.blocks.get ⟨i, hi⟩).base + ((a.blocks.get ⟨i, hi⟩).size + 0 +
          align_address ((a.blocks.get ⟨i, hi⟩).base + (a.blocks.get ⟨i, hi⟩).size) al)
          = (a.blocks.get ⟨i, hi⟩).base + (a.blocks.get ⟨i, hi⟩).size +
            align_address ((a.blocks.get ⟨i, hi⟩).base + (a.blocks.get ⟨i, hi⟩).size) al := by
        omega
      rw [harith]
      exact this

/-! ### Block identity under the operations -/

theorem reserve_preserves_key (b : Block) (s al : Nat) :
    blockKey (b.reserve s al).1 = blockKey b := by
  by_cases hr : b.has_room s al = true
  · rw [block_reserve_of_room hr]
    rfl
  · rw [block_reserve_of_no_room (by simpa using hr)]

theorem map_size_zero_id : ∀ (l : List Block), (∀ b ∈ l, b.size = 0) →
    l.map (fun b => { b with size := 0 }) = l
  | [], _ => rfl
  | b :: bs, h => by
    have hb : b.size = 0 := h b (List.mem_cons_self _ _)
    have hbs := map_size_zero_id bs (fun c hc => h c (List.mem_cons_of_mem _ hc))
    simp only [List.map_cons, hbs]
    congr 1
    cases b
    simp_all

/-! ### A single block arena with a fitting request -/

theorem single_block_reserve {base S s al : Nat} (d : List Nat) (nb : Nat)
    (nd : List Nat) (h : s + align_address base al ≤ S) :
    MemoryArena.reserve ⟨[⟨base, d, S, 0⟩], S⟩ nb nd s al =
      (⟨[⟨base, d, S, 0 + s + align_address (base + 0) al⟩], S⟩,
        some (base + 0 + align_address (base + 0) al)) := by
  have hroom : (⟨base, d, S, 0⟩ : Block).has_room s al = true := by
    rw [has_room_iff]
    simp only [Nat.add_zero, Nat.sub_zero]
    exact h
  have hrb : reserveBlocks s al [⟨base, d, S, 0⟩] =
      some ([((⟨base, d, S, 0⟩ : Block).reserve s al).1],
        ((⟨base, d, S, 0⟩ : Block).reserve s al).2) := by
    unfold reserveBlocks
    rw [if_pos hroom]
  rw [arena_reserve_of_rb_some nb nd hrb,
    block_reserve_of_room hroom]

/-! ## The claims -/

/-- C1: for every allocation request with size `s` and a positive power-of-two
alignment `a`, a successful reserve — and hence every address returned through
`alloc` / `alloc_slice` — returns an address that is a multiple of `a`: the
cursor is first advanced past the alignment padding, so the returned address
modulo `a` is `0`. -/
theorem claim_C1_alignment (a : MemoryArena) (nb : Nat) (nd : List Nat)
    (s al len szT x : Nat) (hpow : ∃ k, al = 2 ^ k) :
    ((a.reserve nb nd s al).2 = some x → x % al = 0) ∧
    ((Allocator.alloc_slice a nb nd len szT al).2 = some x → x % al = 0) := by
  obtain ⟨k, rfl⟩ := hpow
  have hal : 0 < 2 ^ k := pow_pos (by norm_num) k
  exact ⟨fun h => arena_reserve_some_mod hal h, fun h => arena_reserve_some_mod hal h⟩

theorem claim_C1_alignment_witness :
    (∃ k, (4 : Nat) = 2 ^ k) ∧
    ((⟨[Block.new 3 [] 16], 16⟩ : MemoryArena).reserve 0 [] 2 4).2 = some 4 ∧
    (4 : Nat) % 4 = 0 :=
  ⟨⟨2, rfl⟩, by decide,
    (claim_C1_alignment ⟨[Block.new 3 [] 16], 16⟩ 0 [] 2 4 1 2 4 ⟨2, rfl⟩).1 (by decide)⟩

/-- C2: for every sequence of allocations made through one open scope, as long
as the blocks of the arena own pairwise disjoint address ranges (which the
running program guarantees, each block owning its own heap buffer) and every
block satisfies `used ≤ capacity`, the claimed byte ranges
`[address, address + size)` of the allocations are pairwise disjoint. -/
theorem claim_C2_nonoverlap (a : MemoryArena) (reqs : List Request) (hwf : WF a)
    (hdisj : (runScope a reqs).1.blocks.Pairwise blockRangesDisjoint) :
    (runScope a reqs).2.Pairwise resDisjoint :=
  (runScope_spec reqs a hwf hdisj).2.2

theorem claim_C2_nonoverlap_witness :
    WF ⟨[Block.new 0 [] 16], 16⟩ ∧
    (runScope ⟨[Block.new 0 [] 16], 16⟩
      [⟨100, [], 4, 4⟩, ⟨100, [], 5, 2⟩, ⟨100, [], 20, 4⟩]).1.blocks.Pairwise
        blockRangesDisjoint ∧
    (runScope ⟨[Block.new 0 [] 16], 16⟩
      [⟨100, [], 4, 4⟩, ⟨100, [], 5, 2⟩, ⟨100, [], 20, 4⟩]).2.Pairwise resDisjoint :=
  ⟨by decide, by decide, claim_C2_nonoverlap _ _ (by decide) (by decide)⟩

/-- C3: with a positive power-of-two alignment, arena `reserve` never fails:
if some existing block has room the request is served from the first such
block (and no block is added); otherwise exactly one new block of capacity
`max(block_size, size + align)` is appended, and reserving from that fresh
block always succeeds — the null branch after appending is unreachable. -/
theorem claim_C3_never_fails (a : MemoryArena) (nb : Nat) (nd : List Nat)
    (s al : Nat) (hpow : ∃ k, al = 2 ^ k) :
    ((a.reserve nb nd s al).2.isSome = true) ∧
    (∀ bs' p, reserveBlocks s al a.blocks = some (bs', p) →
      (a.reserve nb nd s al).1.blocks.length = a.blocks.length ∧
      ∃ i, ∃ hi : i < a.blocks.length,
        (∀ j (hj : j < a.blocks.length), j < i →
          (a.blocks.get ⟨j, hj⟩).has_room s al = false) ∧
        (a.blocks.get ⟨i, hi⟩).has_room s al = true ∧
        p = ((a.blocks.get ⟨i, hi⟩).reserve s al).2) ∧
    (reserveBlocks s al a.blocks = none →
      (a.reserve nb nd s al).1.blocks.length = a.blocks.length + 1 ∧
      ((Block.new nb nd (max a.block_size (s + al))).reserve s al).2.isSome = true) := by
  obtain ⟨k, rfl⟩ := hpow
  have hal : 0 < 2 ^ k := pow_pos (by norm_num) k
  refine ⟨arena_reserve_isSome nb nd hal, ?_, ?_⟩
  · intro bs' p hrb
    constructor
    · rw [arena_reserve_of_rb_some nb nd hrb]
      obtain ⟨i, hi, _, _, hset, _⟩ := rb_spec hrb
      subst hset
      simp
    · obtain ⟨i, hi, hbef, hroom, _, hres⟩ := rb_spec hrb
      exact ⟨i, hi, hbef, hroom, hres⟩
  · intro hrb
    refine ⟨?_, block_reserve_isSome.mpr (fresh_block_has_room nd a.block_size hal)⟩
    rw [arena_reserve_of_rb_none nb nd hrb]
    simp

theorem claim_C3_never_fails_witness :
    (∃ k, (4 : Nat) = 2 ^ k) ∧
    ((⟨[Block.new 0 [] 8], 8⟩ : MemoryArena).reserve 64 [] 100 4).2.isSome = true :=
  ⟨⟨2, rfl⟩, (claim_C3_never_fails ⟨[Block.new 0 [] 8], 8⟩ 64 [] 100 4 ⟨2, rfl⟩).1⟩

/-- C4 counterexample: a fresh arena with block size `S = 16` whose first
block starts at (8-byte-misaligned) address `4`.  A scope allocates a slice of
total size `4 ≤ S` (one element of size 4, alignment 4) at address `4`,
releases, and a new scope allocates a slice of total size `8 ≤ S` (one element
of size 8, alignment 8): it is served at address `8`, not `4` — the second
allocation's base address differs from the first although both fit in `S`. -/
theorem claim_C4_counterexample :
    1 * 4 ≤ 16 ∧ 1 * 8 ≤ 16 ∧
    (Allocator.alloc_slice ⟨[Block.new 4 [] 16], 16⟩ 0 [] 1 4 4).2 = some 4 ∧
    (Allocator.alloc_slice (Allocator.drop
      (Allocator.alloc_slice ⟨[Block.new 4 [] 16], 16⟩ 0 [] 1 4 4).1)
      0 [] 1 8 8).2 = some 8 ∧
    (Allocator.alloc_slice ⟨[Block.new 4 [] 16], 16⟩ 0 [] 1 4 4).2 ≠
      (Allocator.alloc_slice (Allocator.drop
        (Allocator.alloc_slice ⟨[Block.new 4 [] 16], 16⟩ 0 [] 1 4 4).1)
        0 [] 1 8 8).2 := by
  decide

/-- C4 (amended): for a fresh arena with one block of capacity `S` at base
address `base0`, if both scopes allocate slices at the *same* alignment and
each slice's total size *plus the alignment padding of `base0`* fits in `S`,
then both allocations are served from that same block with its cursor reset
to 0, at the same address `base0 + padding(base0, align)`. -/
theorem claim_C4_reuse_amended (S base0 : Nat) (d0 : List Nat)
    (nb1 nb2 : Nat) (nd1 nd2 : List Nat) (len1 szT1 len2 szT2 al : Nat)
    (h1 : len1 * szT1 + align_address base0 al ≤ S)
    (h2 : len2 * szT2 + align_address base0 al ≤ S) :
    (Allocator.alloc_slice ⟨[⟨base0, d0, S, 0⟩], S⟩ nb1 nd1 len1 szT1 al).2
        = some (base0 + align_address base0 al) ∧
    (Allocator.alloc_slice (Allocator.drop
        (Allocator.alloc_slice ⟨[⟨base0, d0, S, 0⟩], S⟩ nb1 nd1 len1 szT1 al).1)
        nb2 nd2 len2 szT2 al).2
        = some (base0 + align_address base0 al) := by
  unfold Allocator.alloc_slice
  rw [single_block_reserve d0 nb1 nd1 h1]
  refine ⟨by simp, ?_⟩
  have ed : Allocator.drop (⟨[⟨base0, d0, S,
      0 + len1 * szT1 + align_address (base0 + 0) al⟩], S⟩ : MemoryArena)
      = (⟨[⟨base0, d0, S, 0⟩], S⟩ : MemoryArena) := rfl
  show (MemoryArena.reserve (Allocator.drop ⟨[⟨base0, d0, S,
      0 + len1 * szT1 + align_address (base0 + 0) al⟩], S⟩) nb2 nd2
      (len2 * szT2) al).2 = some (base0 + align_address base0 al)
  rw [ed, single_block_reserve d0 nb2 nd2 h2]
  simp

theorem claim_C4_reuse_amended_witness :
    (1 * 8 + align_address 4 8 ≤ 16) ∧
    ((Allocator.alloc_slice ⟨[⟨4, [], 16, 0⟩], 16⟩ 0 [] 1 8 8).2
        = some (4 + align_address 4 8) ∧
      (Allocator.alloc_slice (Allocator.drop
        (Allocator.alloc_slice ⟨[⟨4, [], 16, 0⟩], 16⟩ 0 [] 1 8 8).1) 0 [] 1 8 8).2
        = some (4 + align_address 4 8)) :=
  ⟨by decide, claim_C4_reuse_amended 16 4 [] 0 0 [] [] 1 8 1 8 8 (by decide) (by decide)⟩

/-- C5: releasing a scope (dropping the `Allocator`) sets `used = 0` for every
block of its arena and changes nothing else — the number of blocks, the arena
block size, and each block's base, capacity and byte contents are unchanged.
Releasing a scope whose blocks are all already at cursor 0 is a no-op. -/
theorem claim_C5_release_effect (a : MemoryArena) :
    (Allocator.drop a).blocks.length = a.blocks.length ∧
    (Allocator.drop a).block_size = a.block_size ∧
    (∀ i : Nat, (Allocator.drop a).blocks[i]? =
      (a.blocks[i]?).map (fun b => { b with size := 0 })) ∧
    ((∀ b ∈ a.blocks, b.size = 0) → Allocator.drop a = a) := by
  refine ⟨by simp [Allocator.drop], rfl, ?_, ?_⟩
  · intro i
    simp [Allocator.drop, List.getElem?_map]
  · intro h
    unfold Allocator.drop
    rw [map_size_zero_id a.blocks h]

theorem claim_C5_release_effect_witness :
    (∀ b ∈ (⟨[⟨5, [1, 2], 9, 0⟩], 9⟩ : MemoryArena).blocks, b.size = 0) ∧
    Allocator.drop ⟨[⟨5, [1, 2], 9, 0⟩], 9⟩ = (⟨[⟨5, [1, 2], 9, 0⟩], 9⟩ : MemoryArena) :=
  ⟨by decide, (claim_C5_release_effect ⟨[⟨5, [1, 2], 9, 0⟩], 9⟩).2.2.2 (by decide)⟩

/-- C6: `Block.reserve(size, align)` succeeds exactly when
`has_room(size, align)` holds, i.e. when
`capacity - used ≥ size + padding(base + used, align)`; on success it advances
the cursor by exactly `size + padding` and returns the offset just after the
padding; on failure it returns null and leaves the block unchanged. -/
theorem claim_C6_block_reserve (b : Block) (s al : Nat) :
    ((b.reserve s al).2.isSome = true ↔ b.has_room s al = true) ∧
    (b.has_room s al = true ↔
      s + align_address (b.base + b.size) al ≤ b.capacity - b.size) ∧
    (b.has_room s al = true →
      b.reserve s al = ({ b with size := b.size + s + align_address (b.base + b.size) al },
        some (b.base + b.size + align_address (b.base + b.size) al))) ∧
    (b.has_room s al = false → b.reserve s al = (b, none)) :=
  ⟨block_reserve_isSome, has_room_iff,
    fun h => block_reserve_of_room h, fun h => block_reserve_of_no_room h⟩

theorem claim_C6_block_reserve_witness :
    Block.has_room ⟨3, [], 16, 0⟩ 2 4 = true ∧
    Block.reserve ⟨3, [], 16, 0⟩ 2 4 = (⟨3, [], 16, 3⟩, some 4) ∧
    Block.has_room ⟨3, [], 16, 15⟩ 4 1 = false ∧
    Block.reserve ⟨3, [], 16, 15⟩ 4 1 = (⟨3, [], 16, 15⟩, none) :=
  ⟨by decide,
    (claim_C6_block_reserve ⟨3, [], 16, 0⟩ 2 4).2.2.1 (by decide),
    by decide,
    (claim_C6_block_reserve ⟨3, [], 16, 15⟩ 4 1).2.2.2 (by decide)⟩

/-- C7: every block of every reachable arena state satisfies
`0 ≤ used ≤ capacity`: block creation establishes `used = 0`, a reserve
(successful or failed) preserves the bound, arena reserve preserves it for
all blocks, and scope release resets every cursor to 0. -/
theorem claim_C7_invariant :
    (∀ base d cap, (Block.new base d cap).size ≤ (Block.new base d cap).capacity) ∧
    (∀ (b : Block) (s al : Nat), b.size ≤ b.capacity →
      (b.reserve s al).1.size ≤ (b.reserve s al).1.capacity) ∧
    (∀ (a : MemoryArena) (nb : Nat) (nd : List Nat) (s al : Nat),
      WF a → WF (a.reserve nb nd s al).1) ∧
    (∀ a : MemoryArena, WF (Allocator.drop a)) :=
  ⟨fun _ _ _ => Nat.zero_le _,
    fun _ _ _ h => block_reserve_wf h,
    fun _ nb nd s al h => arena_reserve_wf nb nd s al h,
    drop_wf⟩

theorem claim_C7_invariant_witness :
    WF ⟨[Block.new 0 [] 8], 8⟩ ∧
    WF ((⟨[Block.new 0 [] 8], 8⟩ : MemoryArena).reserve 32 [] 20 4).1 :=
  ⟨by decide, claim_C7_invariant.2.2.1 ⟨[Block.new 0 [] 8], 8⟩ 32 [] 20 4 (by decide)⟩

/-- C8: the blocks sequence only grows and is never reordered: one arena
reserve call either leaves the sequence of block identities (base, capacity,
contents) exactly unchanged, or appends exactly one new block at the end;
and releasing a scope leaves the sequence of block identities unchanged. -/
theorem claim_C8_monotone_blocks (a : MemoryArena) (nb : Nat) (nd : List Nat)
    (s al : Nat) :
    (((a.reserve nb nd s al).1.blocks.map blockKey = a.blocks.map blockKey ∧
        (a.reserve nb nd s al).1.blocks.length = a.blocks.length) ∨
      ((a.reserve nb nd s al).1.blocks.map blockKey =
          a.blocks.map blockKey ++ [(nb, max a.block_size (s + al), nd)] ∧
        (a.reserve nb nd s al).1.blocks.length = a.blocks.length + 1)) ∧
    (Allocator.drop a).blocks.map blockKey = a.blocks.map blockKey := by
  constructor
  · rcases hrb : reserveBlocks s al a.blocks with _ | ⟨bs', p⟩
    · right
      rw [arena_reserve_of_rb_none nb nd hrb]
      refine ⟨?_, by simp⟩
      simp only [List.map_append, List.map_cons, List.map_nil]
      congr 1
      rw [reserve_preserves_key]
      rfl
    · left
      rw [arena_reserve_of_rb_some nb nd hrb]
      obtain ⟨i, hi, _, _, hset, _⟩ := rb_spec hrb
      subst hset
      refine ⟨?_, by simp⟩
      simp only
      rw [List.map_set, reserve_preserves_key]
      have hm : blockKey (a.blocks.get ⟨i, hi⟩)
          = (a.blocks.map blockKey).get ⟨i, by simpa using hi⟩ := by
        simp [List.get_eq_getElem, List.getElem_map]
      rw [hm, set_get_self]
  · simp [Allocator.drop, List.map_map, Function.comp, blockKey]

/-- C10: a zero-size request (e.g. `alloc_slice` with `len = 0`) still
succeeds, a block-level zero-size reserve advances the cursor only by the
alignment padding, and two consecutive zero-size allocations at the same
alignment return the same address — addresses returned within one scope are
not guaranteed to be pairwise distinct. -/
theorem claim_C10_zero_size (a : MemoryArena) (nb nb' szT : Nat)
    (nd nd' : List Nat) (al : Nat) (hpow : ∃ k, al = 2 ^ k) :
    ((Allocator.alloc_slice a nb nd 0 szT al).2.isSome = true) ∧
    (∀ b : Block, b.has_room 0 al = true →
      (b.reserve 0 al).1.size = b.size + align_address (b.base + b.size) al) ∧
    ((Allocator.alloc_slice (Allocator.alloc_slice a nb nd 0 szT al).1
        nb' nd' 0 szT al).2 = (Allocator.alloc_slice a nb nd 0 szT al).2) := by
  obtain ⟨k, rfl⟩ := hpow
  have hal : 0 < 2 ^ k := pow_pos (by norm_num) k
  refine ⟨?_, ?_, ?_⟩
  · simp only [Allocator.alloc_slice, Nat.zero_mul]
    exact arena_reserve_isSome nb nd hal
  · intro b hb
    rw [block_reserve_of_room hb]
    simp only
    omega
  · simp only [Allocator.alloc_slice, Nat.zero_mul]
    exact zero_reserve_twice nb nb' nd nd' hal

theorem claim_C10_zero_size_witness :
    (∃ k, (8 : Nat) = 2 ^ k) ∧
    (Allocator.alloc_slice (Allocator.alloc_slice ⟨[Block.new 3 [] 16], 16⟩
        0 [] 0 8 8).1 0 [] 0 8 8).2
      = (Allocator.alloc_slice ⟨[Block.new 3 [] 16], 16⟩ 0 [] 0 8 8).2 :=
  ⟨⟨3, rfl⟩,
    (claim_C10_zero_size ⟨[Block.new 3 [] 16], 16⟩ 0 0 8 [] [] 8 ⟨3, rfl⟩).2.2⟩

end LightArena
